import Mathlib

/-!
Verification of the spectrology image-to-audio encoder (spectrology.py).

The program is written for Python 2 semantics: `fpx = wavrate / pxs`
(line 73) must be an integer for `range(fpx)` (line 86) and for the array
index `data[i + x * fpx]` (line 89), and in Python 2 the `/` operator on
integers is floor division.  All divisions between integers below are
therefore modelled with `Int.fdiv` (floor division, as Python rounds
toward negative infinity).  The sine itself is modelled by `Real.sin`.
-/

namespace Spectrology

/-- A grayscale image as the encoder sees it: a width, a height, and a
brightness lookup (`img.getpixel((x, y))` in the source).  Brightness
values are 8-bit (0 to 255); the encoder never queries out-of-range
coordinates. -/
structure GrayImage where
  width : Nat
  height : Nat
  px : Nat → Nat → Int

/-- Models the external collaborator `PIL.Image.rotate(90)` with its
default `expand=False` (spectrology.py line 61): per the PIL
documentation the output canvas keeps the ORIGINAL width and height;
the content is rotated 90 degrees about the canvas centre and cropped
to that canvas, with uncovered pixels filled with 0.  (Half-pixel
centres round down when `width + height` is odd.)  No theorem below
depends on the resampled pixel values, only on the documented fact
that the canvas size is unchanged. -/
def pilRotate90 (img : GrayImage) : GrayImage where
  width := img.width
  height := img.height
  px := fun x y =>
    let sx : Int := Int.fdiv ((img.width : Int) + (img.height : Int)) 2 - 1 - (y : Int)
    let sy : Int := (x : Int) + Int.fdiv ((img.height : Int) - (img.width : Int)) 2
    if 0 ≤ sx ∧ sx < (img.width : Int) ∧ 0 ≤ sy ∧ sy < (img.height : Int) then
      img.px sx.toNat sy.toNat
    else 0

/-- Models the external collaborator `PIL.ImageOps.invert` (line 65):
every brightness v becomes 255 - v. -/
def invertImage (img : GrayImage) : GrayImage where
  width := img.width
  height := img.height
  px := fun x y => 255 - img.px x y

/-- Lines 110-116 of spectrology.py.  `cycles = samples * frequency /
samplerate` is Python 2 integer floor division (all call sites pass
integers).  The loop appends
`int(math.floor(math.sin(float(cycles) * 2 * math.pi * i / float(samples)) * float(amplitude)))`
for i in `range(samples)`; a negative or zero `samples` makes the range
empty.  A zero `samplerate` would raise ZeroDivisionError in the
source; every call site passes a positive rate. -/
noncomputable def genwave (frequency amplitude samples samplerate : Int) : List Int :=
  let cycles : Int := Int.fdiv (samples * frequency) samplerate
  (List.range samples.toNat).foldl
    (fun (a : List Int) (i : Nat) =>
      a ++ [Int.floor (Real.sin ((cycles : ℝ) * 2 * Real.pi * (i : ℝ) / (samples : ℝ)) * (amplitude : ℝ))])
    []

/-- The wave segment exactly as the specification's words state it
(spec section 4.1 and claim C2): `cycles = samples * frequency /
sampleRate` taken as the EXACT, generally fractional, quotient, and
`value[i] = floor(sin(2 * pi * cycles * i / samples) * amplitude)`.
This definition follows the spec, not the source; it exists only to be
compared with `genwave`. -/
noncomputable def genwaveSpec (frequency amplitude samples samplerate : Int) : List Int :=
  (List.range samples.toNat).map fun (i : Nat) =>
    Int.floor (Real.sin (2 * Real.pi * ((samples : ℝ) * (frequency : ℝ) / (samplerate : ℝ)) * (i : ℝ) / (samples : ℝ)) * (amplitude : ℝ))

/-- Saturation to the signed 16-bit range, as the spec states it for the
accumulator (spec section 4.2): sums above 32767 store 32767, sums below
-32768 store -32768, in-range sums are stored exactly. -/
def clamp16 (s : Int) : Int :=
  if 32767 < s then 32767 else if s < -32768 then -32768 else s

/-- Python's `array.insert(pos, v)` semantics: insert before position
`pos`, with `pos` clamped to the current length, so an out-of-range
position appends at the end.  `List.take` and `List.drop` reproduce
exactly this clamping. -/
def pyInsert (data : List Int) (pos : Nat) (v : Int) : List Int :=
  data.take pos ++ [v] ++ data.drop pos

/-- One accumulator write, lines 88-96 of spectrology.py:
`data[idx] += v` raises IndexError when `idx` is out of bounds, in which
case `data.insert(idx, v)` runs; the in-bounds store raises
OverflowError when the sum leaves the int16 range of the array, in
which case 32767 or -32768 is stored according to the sign of `v`.
(`array.insert` itself would raise an uncaught OverflowError for a `v`
outside int16; the encoder only ever inserts wave values, which are
bounded by the 8-bit amplitude, see `genwave_bounds`.) -/
def writeSample (data : List Int) (idx : Nat) (v : Int) : List Int :=
  if idx < data.length then
    let s := data.getD idx 0 + v
    if s < -32768 ∨ 32767 < s then
      data.set idx (if 0 < v then 32767 else -32768)
    else data.set idx s
  else
    pyInsert data idx v

/-- Lines 70-71, 81 and 84: `interval = (maxfreq - minfreq) /
img.size[1]` (Python 2 integer floor division) and the row-to-frequency
mapping `yinv * interval + minfreq` with `yinv = H - y - 1`. -/
def rowFrequency (H : Nat) (minfreq maxfreq : Int) (y : Nat) : Int :=
  ((H - y - 1 : Nat) : Int) * Int.fdiv (maxfreq - minfreq) (H : Int) + minfreq

/-- Lines 79-84: the per-column list `row` of wave segments, one for
every pixel of column x with brightness above 0, in increasing row
order. -/
noncomputable def columnRow (img : GrayImage) (minfreq maxfreq fpx wavrate : Int) (x : Nat) : List (List Int) :=
  (List.range img.height).filterMap fun y =>
    if 0 < img.px x y then
      some (genwave (rowFrequency img.height minfreq maxfreq y) (img.px x y) fpx wavrate)
    else none

/-- Lines 86-96: `for i in range(fpx): for j in row:` writing `j[i]` at
buffer index `i + x * fpx`.  A negative `fpx` makes `range(fpx)` empty,
which `Int.toNat` reproduces.  `j[i]` is read with a default that is
never used: every segment in `row` has length exactly `fpx`. -/
def mergeColumn (data : List Int) (x : Nat) (fpx : Int) (row : List (List Int)) : List Int :=
  (List.range fpx.toNat).foldl
    (fun d i => row.foldl (fun e seg => writeSample e (i + x * fpx.toNat) (seg.getD i 0)) d)
    data

/-- Lines 74-99: the column loop `for x in range(img.size[0])` starting
from the empty array, restricted to the first n columns so that the
intermediate state after column x can be named (take n = x + 1); the
source runs it with n equal to the image width. -/
noncomputable def encodeCols (img : GrayImage) (minfreq maxfreq fpx wavrate : Int) (n : Nat) : List Int :=
  (List.range n).foldl
    (fun data x => mergeColumn data x fpx (columnRow img minfreq maxfreq fpx wavrate x))
    []

/-- The ways the conversion aborts before the sample loop.
`badFrameRate` models the external `wave` writer, whose `setparams`
(line 68; cpython wave.py `setframerate`) rejects a frame rate at or
below zero; `zeroDivision` models Python's ZeroDivisionError from
`freqrange / img.size[1]` (line 71, zero image height) or from
`wavrate / pxs` (line 73, zero pixels-per-second). -/
inductive ConvError where
  | badFrameRate : ConvError
  | zeroDivision : ConvError

/-- Lines 60-65: rotate the image if requested, then invert it if
requested (in that order). -/
def transformed (img : GrayImage) (rotate invert : Bool) : GrayImage :=
  let pimg := if rotate then pilRotate90 img else img
  if invert then invertImage pimg else pimg

/-- Lines 56-101 of spectrology.py: rotate and invert the image if
requested (lines 60-65), open the WAV writer and set its parameters
(lines 67-68), compute `interval` and `fpx` with Python 2 integer
division (lines 70-73), run the column loop, and return the finished
sample buffer that line 101 hands to the writer in one batch.  Opening
the input image and the output file are external I/O and assumed to
succeed. -/
noncomputable def convert (img : GrayImage) (minfreq maxfreq pxs wavrate : Int) (rotate invert : Bool) : Except ConvError (List Int) :=
  if wavrate ≤ 0 then Except.error ConvError.badFrameRate
  else if (transformed img rotate invert).height = 0 then Except.error ConvError.zeroDivision
  else if pxs = 0 then Except.error ConvError.zeroDivision
  else
    Except.ok (encodeCols (transformed img rotate invert) minfreq maxfreq
      (Int.fdiv wavrate pxs) wavrate (transformed img rotate invert).width)

/-- A 1 by 1 image whose only pixel is black (brightness 0). -/
def dark1 : GrayImage := ⟨1, 1, fun _ _ => 0⟩

/-- A 2 by 2 image: column 0 black, column 1 with both pixels at
brightness 200. -/
def twoStack : GrayImage := ⟨2, 2, fun x _ => if x = 0 then 0 else 200⟩

/-- A 2 by 1 image, uniformly at brightness 200. -/
def wideStrip : GrayImage := ⟨2, 1, fun _ _ => 200⟩

/-- A 1 by 1 image whose only pixel has brightness 200. -/
def bright1 : GrayImage := ⟨1, 1, fun _ _ => 200⟩

/-! ## Basic list helpers -/

theorem foldl_append_singleton {α β : Type} (g : α → β) (l : List α) (init : List β) :
    l.foldl (fun acc i => acc ++ [g i]) init = init ++ l.map g := by
  induction l generalizing init with
  | nil => simp
  | cons h t ih => simp [ih]

theorem foldl_const {α β : Type} (l : List α) (init : β) :
    l.foldl (fun d _ => d) init = init := by
  induction l generalizing init with
  | nil => rfl
  | cons h t ih => exact ih init

theorem set_append_last (D : List Int) (a b : Int) :
    (D ++ [a]).set D.length b = D ++ [b] := by
  induction D with
  | nil => rfl
  | cons h t ih => simp [List.set, ih]

theorem getD_set_self (l : List Int) (n : Nat) (b : Int) (h : n < l.length) :
    (l.set n b).getD n 0 = b := by
  rw [List.getD_eq_getElem?_getD]
  simp [List.getElem?_set, h]

theorem getD_mem_of_lt (l : List Int) (n : Nat) (h : n < l.length) :
    l.getD n 0 ∈ l := by
  rw [List.getD_eq_getElem?_getD]
  have := List.getElem_mem (l := l) (n := n) h
  simp [List.getElem?_eq_getElem h, this]

theorem map_range_getD (g : Nat → Int) (F i : Nat) (hi : i < F) :
    ((List.range F).map g).getD i 0 = g i := by
  rw [List.getD_eq_getElem?_getD]
  simp [List.getElem?_map, List.getElem?_range hi]

/-! ## The wave-segment generator -/

theorem genwave_eq_map (f a s r : Int) :
    genwave f a s r =
      (List.range s.toNat).map fun (i : Nat) =>
        Int.floor (Real.sin ((Int.fdiv (s * f) r : Int) * 2 * Real.pi * (i : ℝ) / (s : ℝ)) * (a : ℝ)) := by
  simp only [genwave]
  exact foldl_append_singleton _ _ []

theorem genwave_length (f a s r : Int) : (genwave f a s r).length = s.toNat := by
  simp [genwave_eq_map]

theorem genwave_getD (f a s r : Int) (i : Nat) (hi : i < s.toNat) :
    (genwave f a s r).getD i 0 =
      Int.floor (Real.sin ((Int.fdiv (s * f) r : Int) * 2 * Real.pi * (i : ℝ) / (s : ℝ)) * (a : ℝ)) := by
  rw [genwave_eq_map]
  exact map_range_getD _ _ _ hi

theorem genwave_bounds (f a s r : Int) (ha : 0 ≤ a) :
    ∀ v ∈ genwave f a s r, -a ≤ v ∧ v ≤ a := by
  intro v hv
  rw [genwave_eq_map] at hv
  obtain ⟨i, _, rfl⟩ := List.mem_map.mp hv
  have ha' : (0 : ℝ) ≤ (a : ℝ) := by exact_mod_cast ha
  constructor
  · rw [Int.le_floor]
    push_cast
    calc -(a : ℝ) = -1 * a := by ring
    _ ≤ _ := mul_le_mul_of_nonneg_right (Real.neg_one_le_sin _) ha'
  · have hle : Real.sin ((Int.fdiv (s * f) r : Int) * 2 * Real.pi * (i : ℝ) / (s : ℝ)) * (a : ℝ) ≤ ((a : Int) : ℝ) := by
      calc Real.sin _ * (a : ℝ) ≤ 1 * a := mul_le_mul_of_nonneg_right (Real.sin_le_one _) ha'
      _ = ((a : Int) : ℝ) := by ring
    calc Int.floor (Real.sin ((Int.fdiv (s * f) r : Int) * 2 * Real.pi * (i : ℝ) / (s : ℝ)) * (a : ℝ))
        ≤ Int.floor ((a : Int) : ℝ) := Int.floor_le_floor hle
    _ = a := Int.floor_intCast a

theorem genwave_getD_int16 (f a s r : Int) (ha : 0 ≤ a) (ha' : a ≤ 255) (j : Nat) :
    -32768 ≤ (genwave f a s r).getD j 0 ∧ (genwave f a s r).getD j 0 ≤ 32767 := by
  by_cases hj : j < (genwave f a s r).length
  · obtain ⟨h1, h2⟩ := genwave_bounds f a s r ha _ (getD_mem_of_lt _ _ hj)
    omega
  · rw [List.getD_eq_default _ _ (not_lt.mp hj)]
    omega

/-! ## The accumulator write and the merge step -/

theorem writeSample_of_lt (data : List Int) (idx : Nat) (v : Int) (h : idx < data.length) :
    writeSample data idx v =
      data.set idx
        (if data.getD idx 0 + v < -32768 ∨ 32767 < data.getD idx 0 + v then
          (if 0 < v then 32767 else -32768)
        else data.getD idx 0 + v) := by
  simp only [writeSample, if_pos h]
  split_ifs <;> rfl

theorem writeSample_of_ge (data : List Int) (idx : Nat) (v : Int) (h : data.length ≤ idx) :
    writeSample data idx v = data ++ [v] := by
  simp only [writeSample, if_neg (not_lt.mpr h), pyInsert]
  rw [List.take_of_length_le h, List.drop_eq_nil_of_le h]
  simp

theorem writeSample_length_of_lt (data : List Int) (idx : Nat) (v : Int) (h : idx < data.length) :
    (writeSample data idx v).length = data.length := by
  rw [writeSample_of_lt _ _ _ h]
  simp

theorem storeBranch_eq_clamp (a v : Int) (h1 : -32768 ≤ a) (h2 : a ≤ 32767) :
    (if a + v < -32768 ∨ 32767 < a + v then (if 0 < v then (32767 : Int) else -32768) else a + v)
      = clamp16 (a + v) := by
  unfold clamp16
  split_ifs <;> omega

theorem clamp16_range (s : Int) : -32768 ≤ clamp16 s ∧ clamp16 s ≤ 32767 := by
  unfold clamp16
  split_ifs <;> omega

theorem foldl_write_length (row : List (List Int)) (idx i : Nat) :
    ∀ D : List Int, idx < D.length →
      (row.foldl (fun e seg => writeSample e idx (seg.getD i 0)) D).length = D.length := by
  induction row with
  | nil => intro D _; rfl
  | cons s t ih =>
      intro D hD
      rw [List.foldl_cons]
      rw [ih _ (by rw [writeSample_length_of_lt _ _ _ hD]; exact hD)]
      exact writeSample_length_of_lt _ _ _ hD

theorem foldl_write_cons_length (s : List Int) (t : List (List Int)) (D : List Int)
    (idx i : Nat) (h : idx = D.length) :
    ((s :: t).foldl (fun e seg => writeSample e idx (seg.getD i 0)) D).length = D.length + 1 := by
  rw [List.foldl_cons, writeSample_of_ge _ _ _ (le_of_eq h.symm)]
  rw [foldl_write_length t idx i _ (by simp [h])]
  simp

theorem range_fold_length (g : List Int → Nat → List Int) (x F : Nat)
    (hg : ∀ (d : List Int) (i : Nat), d.length = x * F + i → (g d i).length = x * F + i + 1)
    (data : List Int) (hlen : data.length = x * F) (k : Nat) :
    ((List.range k).foldl g data).length = x * F + k := by
  induction k with
  | zero => simpa using hlen
  | succ k ih =>
      rw [List.range_succ, List.foldl_append, List.foldl_cons, List.foldl_nil]
      exact hg _ k ih

theorem mergeColumn_length (data : List Int) (x : Nat) (fpx : Int) (row : List (List Int))
    (hrow : row ≠ []) (hlen : data.length = x * fpx.toNat) :
    (mergeColumn data x fpx row).length = x * fpx.toNat + fpx.toNat := by
  unfold mergeColumn
  refine range_fold_length _ x fpx.toNat ?_ data hlen fpx.toNat
  intro d i hd
  obtain ⟨s, t, rfl⟩ : ∃ s t, row = s :: t := by
    cases row with
    | nil => exact absurd rfl hrow
    | cons s t => exact ⟨s, t, rfl⟩
  have h2 := foldl_write_cons_length s t d (i + x * fpx.toNat) i (by omega)
  rw [hd] at h2
  exact h2

theorem mergeColumn_nil (data : List Int) (x : Nat) (fpx : Int) :
    mergeColumn data x fpx [] = data := by
  simp only [mergeColumn, List.foldl_nil]
  exact foldl_const _ _

theorem range_fold_eq_append (g : List Int → Nat → List Int) (data : List Int)
    (out : Nat → Int)
    (hg : ∀ i : Nat, g (data ++ (List.range i).map out) i = data ++ (List.range (i + 1)).map out)
    (k : Nat) :
    (List.range k).foldl g data = data ++ (List.range k).map out := by
  induction k with
  | zero => simp
  | succ k ih =>
      rw [List.range_succ, List.foldl_append, List.foldl_cons, List.foldl_nil, ih]
      simpa [List.range_succ] using hg k

theorem mergeColumn_pair (data : List Int) (x : Nat) (fpx : Int) (s1 s2 : List Int)
    (hlen : data.length = x * fpx.toNat)
    (hs1 : ∀ j : Nat, -32768 ≤ s1.getD j 0 ∧ s1.getD j 0 ≤ 32767) :
    mergeColumn data x fpx [s1, s2] =
      data ++ (List.range fpx.toNat).map (fun j => clamp16 (s1.getD j 0 + s2.getD j 0)) := by
  unfold mergeColumn
  refine range_fold_eq_append _ data _ ?_ fpx.toNat
  intro i
  simp only [List.foldl_cons, List.foldl_nil]
  set cl : Nat → Int := fun j => clamp16 (s1.getD j 0 + s2.getD j 0) with hcl
  set D : List Int := data ++ (List.range i).map cl with hD
  have hDlen : D.length = x * fpx.toNat + i := by
    rw [hD]; simp [hlen]
  have h1 : writeSample D (i + x * fpx.toNat) (s1.getD i 0) = D ++ [s1.getD i 0] :=
    writeSample_of_ge _ _ _ (by omega)
  rw [h1]
  have h2 : i + x * fpx.toNat < (D ++ [s1.getD i 0]).length := by
    simp only [List.length_append, List.length_cons, List.length_nil]
    omega
  rw [writeSample_of_lt _ _ _ h2]
  have hidx : i + x * fpx.toNat = D.length := by omega
  have hget : (D ++ [s1.getD i 0]).getD (i + x * fpx.toNat) 0 = s1.getD i 0 := by
    rw [hidx, List.getD_append_right _ _ _ _ (le_refl _), Nat.sub_self]
    rfl
  rw [hget, storeBranch_eq_clamp _ _ (hs1 i).1 (hs1 i).2]
  rw [hidx, set_append_last]
  rw [List.range_succ, List.map_append]
  simp [hD, hcl, List.getD_eq_getElem?_getD]

/-! ## The column loop -/

theorem columnRow_ne_nil (img : GrayImage) (minf maxf fpx wavrate : Int) (x y : Nat)
    (hy : y < img.height) (hb : 0 < img.px x y) :
    columnRow img minf maxf fpx wavrate x ≠ [] := by
  apply List.ne_nil_of_mem
    (a := genwave (rowFrequency img.height minf maxf y) (img.px x y) fpx wavrate)
  unfold columnRow
  exact List.mem_filterMap.mpr ⟨y, List.mem_range.mpr hy, by rw [if_pos hb]⟩

theorem encodeCols_length (img : GrayImage) (minf maxf fpx wavrate : Int) (n : Nat) :
    (∀ x, x < n → ∃ y, y < img.height ∧ 0 < img.px x y) →
      (encodeCols img minf maxf fpx wavrate n).length = n * fpx.toNat := by
  induction n with
  | zero => intro _; simp [encodeCols]
  | succ n ih =>
      intro hb
      unfold encodeCols at ih ⊢
      rw [List.range_succ, List.foldl_append, List.foldl_cons, List.foldl_nil]
      obtain ⟨y, hy, hpy⟩ := hb n (Nat.lt_succ_self n)
      rw [mergeColumn_length _ _ _ _ (columnRow_ne_nil img minf maxf fpx wavrate n y hy hpy)
        (ih (fun q hq => hb q (Nat.lt_succ_of_lt hq)))]
      ring

/-! ## Concrete wave-segment evaluations -/

theorem genwave_flat : genwave 2 200 4 4 = [0, 0, 0, 0] := by
  rw [genwave_eq_map]
  rw [show ((4 : Int).toNat) = 4 from rfl, show List.range 4 = [0, 1, 2, 3] from rfl]
  rw [show Int.fdiv ((4 : Int) * 2) 4 = 2 from by decide]
  simp only [List.map_cons, List.map_nil, List.cons.injEq, and_true]
  refine ⟨?_, ?_, ?_, ?_⟩
  · rw [show ((2 : Int) : ℝ) * 2 * Real.pi * ((0 : Nat) : ℝ) / ((4 : Int) : ℝ)
        = ((0 : ℕ) : ℝ) * Real.pi from by push_cast; ring]
    simp [Real.sin_nat_mul_pi]
  · rw [show ((2 : Int) : ℝ) * 2 * Real.pi * ((1 : Nat) : ℝ) / ((4 : Int) : ℝ)
        = ((1 : ℕ) : ℝ) * Real.pi from by push_cast; ring]
    simp [Real.sin_nat_mul_pi]
  · rw [show ((2 : Int) : ℝ) * 2 * Real.pi * ((2 : Nat) : ℝ) / ((4 : Int) : ℝ)
        = ((2 : ℕ) : ℝ) * Real.pi from by push_cast; ring]
    simp [Real.sin_nat_mul_pi]
  · rw [show ((2 : Int) : ℝ) * 2 * Real.pi * ((3 : Nat) : ℝ) / ((4 : Int) : ℝ)
        = Real.pi + 2 * Real.pi from by push_cast; ring]
    rw [Real.sin_add_two_pi, Real.sin_pi]
    simp

theorem genwave_quarter : genwave 1 200 4 4 = [0, 200, 0, -200] := by
  rw [genwave_eq_map]
  rw [show ((4 : Int).toNat) = 4 from rfl, show List.range 4 = [0, 1, 2, 3] from rfl]
  rw [show Int.fdiv ((4 : Int) * 1) 4 = 1 from by decide]
  simp only [List.map_cons, List.map_nil, List.cons.injEq, and_true]
  refine ⟨?_, ?_, ?_, ?_⟩
  · rw [show ((1 : Int) : ℝ) * 2 * Real.pi * ((0 : Nat) : ℝ) / ((4 : Int) : ℝ)
        = (0 : ℝ) from by push_cast; ring]
    simp
  · rw [show ((1 : Int) : ℝ) * 2 * Real.pi * ((1 : Nat) : ℝ) / ((4 : Int) : ℝ)
        = Real.pi / 2 from by push_cast; ring]
    rw [Real.sin_pi_div_two]
    rw [show (1 : ℝ) * ((200 : Int) : ℝ) = ((200 : Int) : ℝ) from by norm_num]
    exact Int.floor_intCast 200
  · rw [show ((1 : Int) : ℝ) * 2 * Real.pi * ((2 : Nat) : ℝ) / ((4 : Int) : ℝ)
        = ((1 : ℕ) : ℝ) * Real.pi from by push_cast; ring]
    simp [Real.sin_nat_mul_pi]
  · rw [show ((1 : Int) : ℝ) * 2 * Real.pi * ((3 : Nat) : ℝ) / ((4 : Int) : ℝ)
        = Real.pi + Real.pi / 2 from by push_cast; ring]
    rw [Real.sin_add, Real.sin_pi, Real.cos_pi, Real.sin_pi_div_two]
    rw [show ((0 : ℝ) * Real.cos (Real.pi / 2) + -1 * 1) * ((200 : Int) : ℝ)
        = ((-200 : Int) : ℝ) from by push_cast; ring]
    exact Int.floor_intCast (-200)

theorem genwave_floored_cycles : genwave 1 10 2 4 = [0, 0] := by
  rw [genwave_eq_map]
  rw [show ((2 : Int).toNat) = 2 from rfl, show List.range 2 = [0, 1] from rfl]
  rw [show Int.fdiv ((2 : Int) * 1) 4 = 0 from by decide]
  simp only [List.map_cons, List.map_nil, List.cons.injEq, and_true]
  constructor
  · rw [show ((0 : Int) : ℝ) * 2 * Real.pi * ((0 : Nat) : ℝ) / ((2 : Int) : ℝ)
        = (0 : ℝ) from by push_cast; ring]
    simp
  · rw [show ((0 : Int) : ℝ) * 2 * Real.pi * ((1 : Nat) : ℝ) / ((2 : Int) : ℝ)
        = (0 : ℝ) from by push_cast; ring]
    simp

theorem genwaveSpec_exact_cycles : genwaveSpec 1 10 2 4 = [0, 10] := by
  unfold genwaveSpec
  rw [show ((2 : Int).toNat) = 2 from rfl, show List.range 2 = [0, 1] from rfl]
  simp only [List.map_cons, List.map_nil, List.cons.injEq, and_true]
  constructor
  · rw [show 2 * Real.pi * (((2 : Int) : ℝ) * ((1 : Int) : ℝ) / ((4 : Int) : ℝ)) * ((0 : Nat) : ℝ) / ((2 : Int) : ℝ)
        = (0 : ℝ) from by push_cast; ring]
    simp
  · rw [show 2 * Real.pi * (((2 : Int) : ℝ) * ((1 : Int) : ℝ) / ((4 : Int) : ℝ)) * ((1 : Nat) : ℝ) / ((2 : Int) : ℝ)
        = Real.pi / 2 from by push_cast; ring]
    rw [Real.sin_pi_div_two]
    rw [show (1 : ℝ) * ((10 : Int) : ℝ) = ((10 : Int) : ℝ) from by norm_num]
    exact Int.floor_intCast 10

/-! ## The conversion entry point -/

theorem transformed_height (img : GrayImage) (rot inv : Bool) :
    (transformed img rot inv).height = img.height := by
  cases rot <;> cases inv <;> rfl

theorem transformed_id (img : GrayImage) : transformed img false false = img := rfl

theorem convert_ok_exists (img : GrayImage) (minf maxf pxs wavrate : Int) (rot inv : Bool)
    (hwr : 0 < wavrate) (hp : pxs ≠ 0) (hH : img.height ≠ 0) :
    ∃ buf, convert img minf maxf pxs wavrate rot inv = Except.ok buf :=
  ⟨encodeCols (transformed img rot inv) minf maxf (Int.fdiv wavrate pxs) wavrate
      (transformed img rot inv).width, by
    unfold convert
    rw [if_neg (not_le.mpr hwr), if_neg (by rw [transformed_height]; exact hH), if_neg hp]⟩

theorem convert_small_dark (img : GrayImage) (minf maxf pxs wavrate : Int)
    (hW : img.width = 1) (hH : img.height = 1) (hdark : img.px 0 0 = 0)
    (hwr : 0 < wavrate) (hp : pxs ≠ 0) :
    convert img minf maxf pxs wavrate false false = Except.ok [] := by
  unfold convert
  rw [transformed_id]
  rw [if_neg (not_le.mpr hwr), if_neg (by rw [hH]; simp), if_neg hp]
  congr 1
  rw [hW]
  unfold encodeCols
  rw [show List.range 1 = [0] from rfl]
  simp only [List.foldl_cons, List.foldl_nil]
  have hrow : columnRow img minf maxf (Int.fdiv wavrate pxs) wavrate 0 = [] := by
    unfold columnRow
    rw [hH, show List.range 1 = [0] from rfl]
    simp [hdark]
  rw [hrow, mergeColumn_nil]

/-! ## Concrete evaluations of the column loop -/

theorem columnRow_twoStack_dark (fpx wavrate : Int) :
    columnRow twoStack 1 3 fpx wavrate 0 = [] := by
  unfold columnRow
  rw [show twoStack.height = 2 from rfl, show List.range 2 = [0, 1] from rfl]
  simp only [List.filterMap_cons, List.filterMap_nil]
  rw [show twoStack.px 0 0 = 0 from rfl, show twoStack.px 0 1 = 0 from rfl]
  simp

theorem columnRow_twoStack_bright (fpx wavrate : Int) :
    columnRow twoStack 1 3 fpx wavrate 1 =
      [genwave 2 200 fpx wavrate, genwave 1 200 fpx wavrate] := by
  unfold columnRow
  rw [show twoStack.height = 2 from rfl, show List.range 2 = [0, 1] from rfl]
  simp only [List.filterMap_cons, List.filterMap_nil]
  rw [show twoStack.px 1 0 = 200 from rfl, show twoStack.px 1 1 = 200 from rfl]
  rw [show rowFrequency 2 1 3 0 = 2 from by decide, show rowFrequency 2 1 3 1 = 1 from by decide]
  simp

theorem encodeCols_twoStack :
    encodeCols twoStack 1 3 4 4 2 = [0, 0, 0, 200, 0, 0, 0, -200] := by
  unfold encodeCols
  rw [show List.range 2 = [0, 1] from rfl]
  simp only [List.foldl_cons, List.foldl_nil]
  rw [columnRow_twoStack_dark, mergeColumn_nil, columnRow_twoStack_bright,
    genwave_flat, genwave_quarter]
  decide

theorem encodeCols_dark1 (minf maxf : Int) (fpx wavrate : Int) :
    encodeCols dark1 minf maxf fpx wavrate 1 = [] := by
  unfold encodeCols
  rw [show List.range 1 = [0] from rfl]
  simp only [List.foldl_cons, List.foldl_nil]
  have hrow : columnRow dark1 minf maxf fpx wavrate 0 = [] := by
    unfold columnRow
    rw [show dark1.height = 1 from rfl, show List.range 1 = [0] from rfl]
    simp only [List.filterMap_cons, List.filterMap_nil]
    rw [show dark1.px 0 0 = 0 from rfl]
    simp
  rw [hrow, mergeColumn_nil]

/-! ## Claim C1 -/

/-- C1 (amended): after the encoder finishes processing column x the
sample buffer's length is exactly (x+1) * samplesPerColumn PROVIDED
every column in [0, x] contains at least one pixel with brightness
above 0.  (The reference code only extends the buffer on writes, so a
fully dark column contributes nothing; see the counterexample.) -/
theorem c1_amended (img : GrayImage) (minf maxf fpx wavrate : Int) (x : Nat)
    (_hx : x < img.width)
    (hb : ∀ q, q ≤ x → ∃ y, y < img.height ∧ 0 < img.px q y) :
    (encodeCols img minf maxf fpx wavrate (x + 1)).length = (x + 1) * fpx.toNat :=
  encodeCols_length img minf maxf fpx wavrate (x + 1) (fun q hq => hb q (Nat.lt_succ_iff.mp hq))

/-- C1 (witness): a 1 by 1 all-bright image at samplesPerColumn = 1470
reaches length 1 * 1470 after its single column. -/
theorem c1_witness :
    (encodeCols bright1 200 20000 1470 44100 (0 + 1)).length = (0 + 1) * (1470 : Int).toNat :=
  c1_amended bright1 200 20000 1470 44100 0 (by decide)
    (fun q _ => ⟨0, by decide, show (0 : Int) < 200 by decide⟩)

/-- C1 (counterexample): a 1 by 1 all-dark image with samplesPerColumn
= 2 leaves the buffer EMPTY after column 0, not of length
(0+1) * samplesPerColumn as the claim states. -/
theorem c1_cex :
    (encodeCols dark1 200 20000 2 4 (0 + 1)).length = 0 ∧ (0 : Nat) ≠ (0 + 1) * (2 : Int).toNat := by
  constructor
  · rw [encodeCols_dark1]
    rfl
  · decide

/-! ## Claim C2 -/

/-- C2 (counterexample): at frequency 1, amplitude 10, samples 2,
sampleRate 4, the code's value at index 1 is 0 (its `cycles` is the
Python 2 FLOOR of 2*1/4, namely 0), while the spec's exact-quotient
formula (cycles = 1/2, angle pi/2) gives 10. -/
theorem c2_cex :
    (genwave 1 10 2 4).getD 1 0 = 0 ∧ (genwaveSpec 1 10 2 4).getD 1 0 = 10 ∧ (0 : Int) ≠ 10 := by
  rw [genwave_floored_cycles, genwaveSpec_exact_cycles]
  exact ⟨rfl, rfl, by decide⟩

/-- C2 (amended): genwave returns exactly `samples.toNat` integers and
the value at every index i equals
floor(sin(2 * pi * cycles * i / samples) * amplitude) where cycles is
the Python 2 integer FLOOR of samples * frequency / sampleRate (all
arguments are integers), not the exact fractional quotient. -/
theorem c2_amended (f a s r : Int) :
    (genwave f a s r).length = s.toNat ∧
    ∀ i : Nat, i < s.toNat →
      (genwave f a s r).getD i 0 =
        Int.floor (Real.sin (2 * Real.pi * ((Int.fdiv (s * f) r : Int) : ℝ) * (i : ℝ) / (s : ℝ)) * (a : ℝ)) := by
  refine ⟨genwave_length f a s r, fun i hi => ?_⟩
  rw [genwave_getD f a s r i hi]
  rw [show ((Int.fdiv (s * f) r : Int) : ℝ) * 2 * Real.pi * (i : ℝ) / (s : ℝ)
      = 2 * Real.pi * ((Int.fdiv (s * f) r : Int) : ℝ) * (i : ℝ) / (s : ℝ) from by ring]

/-- C2 (witness): the amended formula applied at frequency 1, amplitude
10, samples 2, sampleRate 4, index 1. -/
theorem c2_witness :
    1 < (2 : Int).toNat ∧
    (genwave 1 10 2 4).getD 1 0 =
      Int.floor (Real.sin (2 * Real.pi * ((Int.fdiv ((2 : Int) * 1) 4 : Int) : ℝ) * ((1 : Nat) : ℝ) / ((2 : Int) : ℝ)) * ((10 : Int) : ℝ)) :=
  ⟨by decide, (c2_amended 1 10 2 4).2 1 (by decide)⟩

/-! ## Claim C3 -/

/-- C3: when a merge write hits an in-bounds index of a buffer whose
values are all within int16, the stored result is the mathematical sum
of the existing sample and the added value clamped to
[-32768, 32767] (no wraparound), and every buffer value stays within
[-32768, 32767] afterwards. -/
theorem c3_saturating_add (data : List Int) (idx : Nat) (v : Int)
    (hrange : ∀ w ∈ data, -32768 ≤ w ∧ w ≤ 32767) (hidx : idx < data.length) :
    (writeSample data idx v).getD idx 0 = clamp16 (data.getD idx 0 + v) ∧
    ∀ w ∈ writeSample data idx v, -32768 ≤ w ∧ w ≤ 32767 := by
  obtain ⟨hlo, hhi⟩ := hrange _ (getD_mem_of_lt data idx hidx)
  rw [writeSample_of_lt data idx v hidx]
  constructor
  · rw [getD_set_self _ _ _ hidx, storeBranch_eq_clamp _ _ hlo hhi]
  · intro w hw
    rcases List.mem_or_eq_of_mem_set hw with h | h
    · exact hrange w h
    · subst h
      rw [storeBranch_eq_clamp _ _ hlo hhi]
      exact clamp16_range _

/-- C3 (witness): adding 1000 to a buffer holding 32000 saturates to
32767 via clamp16. -/
theorem c3_witness :
    (writeSample [32000] 0 1000).getD 0 0 = clamp16 (([32000] : List Int).getD 0 0 + 1000) ∧
    ∀ w ∈ writeSample [32000] 0 1000, -32768 ≤ w ∧ w ≤ 32767 :=
  c3_saturating_add [32000] 0 1000 (by decide) (by decide)

/-! ## Claim C4 -/

/-- C4: with a valid configuration the pixel at row y is synthesized at
frequency minFrequency + (H-1-y) * interval with
interval = (maxFrequency - minFrequency) / H (the code's integer
division); the bottommost row H-1 maps to exactly minFrequency and the
topmost row 0 to minFrequency + (H-1) * interval. -/
theorem c4_frequency_mapping (H : Nat) (minf maxf : Int) (hH : 0 < H) (_hlt : minf < maxf) :
    (∀ y, y < H → rowFrequency H minf maxf y
        = minf + ((H - 1 - y : Nat) : Int) * Int.fdiv (maxf - minf) (H : Int)) ∧
    rowFrequency H minf maxf (H - 1) = minf ∧
    rowFrequency H minf maxf 0 = minf + ((H - 1 : Nat) : Int) * Int.fdiv (maxf - minf) (H : Int) := by
  refine ⟨fun y hy => ?_, ?_, ?_⟩
  · unfold rowFrequency
    rw [show H - y - 1 = H - 1 - y from by omega]
    ring
  · unfold rowFrequency
    rw [show H - (H - 1) - 1 = 0 from by omega]
    simp
  · unfold rowFrequency
    rw [show H - 0 - 1 = H - 1 from by omega]
    ring

/-- C4 (witness): the mapping at H = 4, minFrequency 200,
maxFrequency 20000. -/
theorem c4_witness :
    (∀ y, y < 4 → rowFrequency 4 200 20000 y
        = 200 + ((4 - 1 - y : Nat) : Int) * Int.fdiv (20000 - 200) (4 : Int)) ∧
    rowFrequency 4 200 20000 (4 - 1) = 200 ∧
    rowFrequency 4 200 20000 0 = 200 + ((4 - 1 : Nat) : Int) * Int.fdiv (20000 - 200) (4 : Int) :=
  c4_frequency_mapping 4 200 20000 (by decide) (by decide)

/-! ## Claim C5 -/

/-- C5 (amended): for a column holding exactly two bright pixels, the
merged buffer value at every sample index i of that column's window
equals the saturated sum of the two independently generated segment
values, PROVIDED the buffer is aligned at x * samplesPerColumn when
the column is merged (that is, every earlier column had at least one
bright pixel; see the counterexample for the misaligned case). -/
theorem c5_amended (data : List Int) (x : Nat) (fpx wavrate f1 a1 f2 a2 : Int)
    (ha1 : 0 < a1) (hb1 : a1 ≤ 255) (_ha2 : 0 < a2) (_hb2 : a2 ≤ 255)
    (hlen : data.length = x * fpx.toNat) (i : Nat) (hi : i < fpx.toNat) :
    (mergeColumn data x fpx [genwave f1 a1 fpx wavrate, genwave f2 a2 fpx wavrate]).getD
        (x * fpx.toNat + i) 0
      = clamp16 ((genwave f1 a1 fpx wavrate).getD i 0 + (genwave f2 a2 fpx wavrate).getD i 0) := by
  rw [mergeColumn_pair data x fpx _ _ hlen
    (fun j => genwave_getD_int16 f1 a1 fpx wavrate (le_of_lt ha1) hb1 j)]
  rw [List.getD_append_right _ _ _ _ (by omega)]
  rw [show x * fpx.toNat + i - data.length = i from by omega]
  exact map_range_getD _ _ _ hi

/-- C5 (witness): the amended statement at an aligned column 0 with the
two concrete segments of the two-pixel scenario. -/
theorem c5_witness :
    (mergeColumn [] 0 4 [genwave 2 200 4 4, genwave 1 200 4 4]).getD (0 * (4 : Int).toNat + 1) 0
      = clamp16 ((genwave 2 200 4 4).getD 1 0 + (genwave 1 200 4 4).getD 1 0) :=
  c5_amended [] 0 4 4 2 200 1 200 (by decide) (by decide) (by decide) (by decide) rfl 1 (by decide)

/-- C5 (counterexample): in the 2 by 2 image whose column 0 is dark and
whose column 1 has two bright pixels (amplitude 200, frequencies 2 and
1 at 4 samples per column, rate 4), the buffer value at index 1 of
column 1's window (absolute index 1*4+1) is 0, while the saturated sum
of the two segment values at index 1 is 200: the claim fails because
the dark column left the buffer short and every write of column 1 was
appended at the end instead of merged. -/
theorem c5_cex :
    (encodeCols twoStack 1 3 4 4 2).getD (1 * 4 + 1) 0 = 0 ∧
    clamp16 ((genwave 2 200 4 4).getD 1 0 + (genwave 1 200 4 4).getD 1 0) = 200 ∧
    (0 : Int) ≠ 200 := by
  refine ⟨?_, ?_, by decide⟩
  · rw [encodeCols_twoStack]
    rfl
  · rw [genwave_flat, genwave_quarter]
    decide

/-! ## Claim C6 -/

/-- C6: with the rotate flag the encoder consumes `pilRotate90 img`,
and PIL's rotate(90) with its default expand=False KEEPS the original
canvas: for the 2 by 1 image the rotated image still has width 2 (and
height 1), so the conversion still produces 2 output columns, not
height = 1 columns as the axis swap demands. -/
theorem c6_rotate_bug :
    (pilRotate90 wideStrip).width = 2 ∧ (pilRotate90 wideStrip).height = 1 ∧
    (∀ (minf maxf pxs wavrate : Int) (inv : Bool),
      convert wideStrip minf maxf pxs wavrate true inv =
        convert (pilRotate90 wideStrip) minf maxf pxs wavrate false inv) ∧
    (2 : Nat) ≠ 1 := by
  exact ⟨rfl, rfl, fun minf maxf pxs wavrate inv => rfl, by decide⟩

/-! ## Claim C7 -/

/-- C7 (amended): converting a 1 by 1 image whose single pixel has
brightness 0 produces an EMPTY output buffer (the reference code never
pads dark columns), not samplesPerColumn zero samples. -/
theorem c7_amended (img : GrayImage) (minf maxf pxs wavrate : Int)
    (hW : img.width = 1) (hH : img.height = 1) (hdark : img.px 0 0 = 0)
    (hwr : 0 < wavrate) (hp : pxs ≠ 0) :
    convert img minf maxf pxs wavrate false false = Except.ok [] :=
  convert_small_dark img minf maxf pxs wavrate hW hH hdark hwr hp

/-- C7 (witness): the amended statement at a concrete configuration. -/
theorem c7_witness :
    convert dark1 300 5000 25 44100 false false = Except.ok [] :=
  c7_amended dark1 300 5000 25 44100 rfl rfl rfl (by decide) (by decide)

/-- C7 (counterexample): at the default configuration (200 Hz to
20000 Hz, 30 px/s, 44100 Hz) samplesPerColumn is 1470, yet the 1 by 1
all-black image converts to a buffer of length 0, not 1470. -/
theorem c7_cex :
    convert dark1 200 20000 30 44100 false false = Except.ok [] ∧
    (Int.fdiv 44100 30).toNat = 1470 ∧ ([] : List Int).length ≠ 1470 :=
  ⟨convert_small_dark dark1 200 20000 30 44100 rfl rfl rfl (by decide) (by decide),
    by decide, by decide⟩

/-! ## Claim C8 -/

/-- C8: for every valid input, every value of the generated segment
lies in [-amplitude, amplitude], and the value at index 0 is exactly
0. -/
theorem c8_wave_bounds (f a s r : Int) (_hf : 0 < f) (ha0 : 0 ≤ a) (_ha : a ≤ 255)
    (hs : 0 < s) (_hr : 0 < r) :
    (∀ v ∈ genwave f a s r, -a ≤ v ∧ v ≤ a) ∧ (genwave f a s r)[0]? = some 0 := by
  refine ⟨genwave_bounds f a s r ha0, ?_⟩
  rw [genwave_eq_map]
  have h0 : 0 < s.toNat := by omega
  rw [List.getElem?_map, List.getElem?_range h0]
  simp only [Option.map_some']
  rw [show ((Int.fdiv (s * f) r : Int) : ℝ) * 2 * Real.pi * ((0 : Nat) : ℝ) / (s : ℝ)
      = 0 from by push_cast; ring]
  simp

/-- C8 (witness): the bounds at frequency 5, amplitude 200, 1470
samples, rate 44100. -/
theorem c8_witness :
    (∀ v ∈ genwave 5 200 1470 44100, -200 ≤ v ∧ v ≤ 200) ∧
    (genwave 5 200 1470 44100)[0]? = some 0 :=
  c8_wave_bounds 5 200 1470 44100 (by decide) (by decide) (by decide) (by decide) (by decide)

/-! ## Claim C9 -/

/-- C9 (amended): the code performs no configuration validation: with
minFrequency at or above maxFrequency (and a positive sample rate, a
nonzero pixels-per-second and a nonempty image) the conversion
SUCCEEDS and finalizes an output buffer; no InvalidConfiguration error
exists in the code. -/
theorem c9_amended (img : GrayImage) (minf maxf pxs wavrate : Int) (rot inv : Bool)
    (_hge : maxf ≤ minf) (hwr : 0 < wavrate) (hp : pxs ≠ 0) (hH : img.height ≠ 0) :
    ∃ buf, convert img minf maxf pxs wavrate rot inv = Except.ok buf :=
  convert_ok_exists img minf maxf pxs wavrate rot inv hwr hp hH

/-- C9 (witness): the amended statement with minFrequency 300 above
maxFrequency 200. -/
theorem c9_witness :
    ∃ buf, convert bright1 300 200 30 44100 false false = Except.ok buf :=
  c9_amended bright1 300 200 30 44100 false false (by decide) (by decide) (by decide)
    (by decide)

/-- C9 (counterexample): with minFrequency 20000 at or above
maxFrequency 200 the conversion of a bright 1 by 1 image completes and
returns a finalized buffer instead of failing with an
InvalidConfiguration error. -/
theorem c9_cex :
    ∃ buf, convert bright1 20000 200 30 44100 false false = Except.ok buf :=
  convert_ok_exists bright1 20000 200 30 44100 false false (by decide) (by decide) (by decide)

/-! ## Claim C10 -/

/-- C10: a merge write whose target index is strictly greater than the
buffer's current length places the value at the current END of the
buffer (Python's array.insert clamps the position), so a fully dark
column emits no silent samples at all (its merge leaves the buffer
untouched) and later audio is shifted earlier than its nominal
offset. -/
theorem c10_gap_write (data : List Int) (idx : Nat) (v : Int) (x : Nat) (fpx : Int)
    (h : data.length < idx) :
    writeSample data idx v = data ++ [v] ∧
    (writeSample data idx v).getD data.length 0 = v ∧
    mergeColumn data x fpx [] = data := by
  have h1 := writeSample_of_ge data idx v (le_of_lt h)
  refine ⟨h1, ?_, mergeColumn_nil data x fpx⟩
  rw [h1, List.getD_append_right _ _ _ _ (le_refl _), Nat.sub_self]
  rfl

/-- C10 (witness): writing value 7 at index 3 of the one-element buffer
[5] appends it at position 1, the current end. -/
theorem c10_witness :
    writeSample [5] 3 7 = [5] ++ [7] ∧
    (writeSample [5] 3 7).getD ([5] : List Int).length 0 = 7 ∧
    mergeColumn [5] 0 2 [] = [5] :=
  c10_gap_write [5] 3 7 0 2 (by decide)

end Spectrology
